import Mathlib

/-!
Shallow embedding of `src/services/slack/slack.service.ts` (ASlack-Stream).

The embedding translates the classes `DisplaySlackReactionInfo`,
`DisplaySlackMessageInfo` and `SlackService` into pure Lean functions over
explicit state.  JavaScript in-place mutation of a found list element becomes
replace-first-match recursion; nullable fields become `Option`; a JavaScript
expression that can throw (reading `files[0]` of an empty array) is modelled
by predicates returning `Option Bool`, where `none` marks the fault.

Fields of `SlackMessage` (declared in `slack-client.ts`, outside the service
source) are modelled as plain record fields carrying exactly the data the
service reads from them.
-/

set_option autoImplicit false

namespace SlackSpec

/-- A protocol-level attachment; the service only copies attachments around,
so an opaque carrier suffices. -/
structure Attachment where
  payload : String
deriving DecidableEq, Repr

/-- One file object inside `rawMessage.files`; the service reads `id`,
`mimetype` and thumbnail fields, of which only `id` matters to the claims. -/
structure SlackFile where
  id : String
deriving DecidableEq, Repr

/-- `rawMessage.comment` as read by the resolver. -/
structure SlackComment where
  id : String
deriving DecidableEq, Repr

/-- The embedded original message carried by a `message_changed` event
(`rawMessage.message`): the service reads its `ts`, `text` and
`attachments`. -/
structure RawEmbedded where
  ts : String
  text : String
  attachments : Option (List Attachment)
deriving DecidableEq, Repr

/-- The protocol payload `rawMessage` as read by the service: `subtype`,
`ts`, `channel`, `deleted_ts`, the embedded original message, `files`,
`comment` and `attachments`.  Nullable / possibly-absent fields are
`Option`. -/
structure RawMessage where
  subtype : Option String
  ts : String
  channel : String
  deleted_ts : Option String
  message : Option RawEmbedded
  files : Option (List SlackFile)
  comment : Option SlackComment
  attachments : Option (List Attachment)
deriving DecidableEq, Repr

/-- `SlackMessage` from `slack-client.ts`, restricted to the fields the
service reads: the raw payload, the mutable display `text`, the `subType`
used by the reaction resolver, and the message body `message` whose
truthiness gates `addMessage`. -/
structure SlackMessage where
  rawMessage : RawMessage
  text : String
  subType : String
  message : Option RawMessage
deriving DecidableEq, Repr

/-- `DisplaySlackReactionInfo` without its back-reference to the owning
entry (the back-reference only feeds derived getters the claims never
touch): the raw emoji code, the rendered (normalized) reaction key, and the
user list. -/
structure DisplaySlackReactionInfo where
  rawReaction : String
  reaction : String
  users : List String
deriving DecidableEq, Repr

/-- `DisplaySlackReactionInfo.addUser`: `this.removeUser(user)` followed by
`this.users.push(user)`. -/
def addUser (user : String) (g : DisplaySlackReactionInfo) : DisplaySlackReactionInfo :=
  { g with users := g.users.filter (fun u => u ≠ user) ++ [user] }

/-- `DisplaySlackReactionInfo.removeUser`:
`this.users = this.users.filter(u => u !== user)`. -/
def removeUser (user : String) (g : DisplaySlackReactionInfo) : DisplaySlackReactionInfo :=
  { g with users := g.users.filter (fun u => u ≠ user) }

/-- The group lookup key used by `addReaction` / `removeReaction`:
`this.parser.parse(":<raw>::notitle:", dataStore)`; the parser is passed in
as a pure function, as guaranteed by the pipeline contract. -/
def reactionKey (parse : String → String) (raw : String) : String :=
  parse (":" ++ raw ++ "::notitle:")

/-- The payload of a `reaction_added` / `reaction_removed` event as read by
the aggregator: the raw emoji code and the reacting user. -/
structure ReactionEvent where
  reaction : String
  user : String
deriving DecidableEq, Repr

/-- Body of `DisplaySlackMessageInfo.addReaction` after the key is rendered:
find the first group whose rendered key matches and mutate it in place with
`addUser`; if none matches, push a fresh singleton group at the end. -/
def addReactionGroups (raw key user : String) :
    List DisplaySlackReactionInfo → List DisplaySlackReactionInfo
  | [] => [⟨raw, key, [user]⟩]
  | g :: gs =>
    if g.reaction = key then addUser user g :: gs
    else g :: addReactionGroups raw key user gs

/-- `DisplaySlackMessageInfo.addReaction` on the entry's reaction list. -/
def addReaction (parse : String → String) (ev : ReactionEvent)
    (rs : List DisplaySlackReactionInfo) : List DisplaySlackReactionInfo :=
  addReactionGroups ev.reaction (reactionKey parse ev.reaction) ev.user rs

/-- First pass of `removeReaction`: locate the first group whose key
matches, apply `removeUser` to it in place, and report the mutated group's
resulting user count (`none` when no group matched). -/
def removeReactionAux (key user : String) :
    List DisplaySlackReactionInfo → List DisplaySlackReactionInfo × Option Nat
  | [] => ([], none)
  | g :: gs =>
    if g.reaction = key then
      (removeUser user g :: gs, some (removeUser user g).users.length)
    else
      let r := removeReactionAux key user gs
      (g :: r.1, r.2)

/-- Body of `DisplaySlackMessageInfo.removeReaction` after the key is
rendered: remove the user from the first matching group; if that leaves the
group with zero users, filter out every group with that key. -/
def removeReactionGroups (key user : String)
    (rs : List DisplaySlackReactionInfo) : List DisplaySlackReactionInfo :=
  match removeReactionAux key user rs with
  | (rs2, some 0) => rs2.filter (fun r => r.reaction ≠ key)
  | (rs2, _) => rs2

/-- `DisplaySlackMessageInfo.removeReaction` on the entry's reaction list. -/
def removeReaction (parse : String → String) (ev : ReactionEvent)
    (rs : List DisplaySlackReactionInfo) : List DisplaySlackReactionInfo :=
  removeReactionGroups (reactionKey parse ev.reaction) ev.user rs

/-- `DisplaySlackMessageInfo`: the timeline entry.  `image` is set only by
the asynchronous thumbnail fetch, which is external I/O; at insertion time
it is `null`.  The per-entry parsers are carried at the call sites instead
of inside the structure so entries stay decidably comparable. -/
structure DisplaySlackMessageInfo where
  message : SlackMessage
  edited : Bool
  image : Option String
  reactions : List DisplaySlackReactionInfo
deriving DecidableEq, Repr

/-- `new DisplaySlackMessageInfo(message, ...)`: `edited = false`,
`image = null`, `reactions = []`. -/
def mkInfo (message : SlackMessage) : DisplaySlackMessageInfo :=
  ⟨message, false, none, []⟩

/-- `SlackService.addMessage`: when the event carries a message body
(`if (message.message)`), the new entry is `unshift`ed onto the head of
`this.infos` and a change notification fires inside the handler; otherwise
nothing happens.  The asynchronous thumbnail fetch and `markRead` are
external effects and do not touch the timeline list.  Returns the new
timeline and whether the handler itself notified. -/
def addMessage (ev : SlackMessage) (infos : List DisplaySlackMessageInfo) :
    List DisplaySlackMessageInfo × Bool :=
  match ev.message with
  | some _ => (mkInfo ev :: infos, true)
  | none => (infos, false)

/-- The keep-predicate of `removeDeletedMessage`:
`message.rawMessage.deleted_ts !== m.message.rawMessage.ts`; a missing
`deleted_ts` is unequal to every string. -/
def keptOnDelete (deletedTs : Option String) (m : DisplaySlackMessageInfo) : Bool :=
  deletedTs ≠ some m.message.rawMessage.ts

/-- `SlackService.removeDeletedMessage`: filter the timeline by
`deleted_ts !== entry ts` and notify. -/
def removeDeletedMessage (ev : SlackMessage) (infos : List DisplaySlackMessageInfo) :
    List DisplaySlackMessageInfo × Bool :=
  (infos.filter (keptOnDelete ev.rawMessage.deleted_ts), true)

/-- The match predicate of `changeMessage`: the entry's raw `ts` equals the
embedded original message's `ts`, and the entry's raw `channel` equals the
event's `channel`. -/
def editMatches (emb : RawEmbedded) (channel : String)
    (m : DisplaySlackMessageInfo) : Bool :=
  m.message.rawMessage.ts = emb.ts ∧ m.message.rawMessage.channel = channel

/-- The in-place mutation `changeMessage` performs on the found entry:
`edited = true`, `message.text = embedded text`,
`message.rawMessage.attachments = embedded attachments`. -/
def applyEdit (emb : RawEmbedded) (m : DisplaySlackMessageInfo) :
    DisplaySlackMessageInfo :=
  { m with
    edited := true
    message := { m.message with
      text := emb.text
      rawMessage := { m.message.rawMessage with attachments := emb.attachments } } }

/-- `this.infos.find(...)` followed by in-place mutation of the found
entry: replace the first entry matching the predicate. -/
def editFirst (emb : RawEmbedded) (channel : String) :
    List DisplaySlackMessageInfo → List DisplaySlackMessageInfo × Bool
  | [] => ([], false)
  | m :: ms =>
    if editMatches emb channel m then (applyEdit emb m :: ms, true)
    else
      let r := editFirst emb channel ms
      (m :: r.1, r.2)

/-- `SlackService.changeMessage`: reads
`message.rawMessage.message.ts` — a missing embedded message makes the
handler fault, hence the `Option` result.  When an entry matches, it is
mutated in place and the handler notifies; otherwise nothing happens and
the handler itself does not notify. -/
def changeMessage (ev : SlackMessage) (infos : List DisplaySlackMessageInfo) :
    Option (List DisplaySlackMessageInfo × Bool) :=
  (ev.rawMessage.message).map (fun emb => editFirst emb ev.rawMessage.channel infos)

/-- `SlackService.onReceiveMessage`: dispatch on `rawMessage.subtype`
(`message_replied` is an explicit no-op), then fire `_onChange.next`
unconditionally after the switch.  Returns the new timeline and the total
number of change notifications emitted while handling the event. -/
def onReceiveMessage (ev : SlackMessage) (infos : List DisplaySlackMessageInfo) :
    Option (List DisplaySlackMessageInfo × Nat) :=
  match ev.rawMessage.subtype with
  | some s =>
    if s = "message_deleted" then
      let r := removeDeletedMessage ev infos
      some (r.1, (cond r.2 1 0) + 1)
    else if s = "message_changed" then
      (changeMessage ev infos).map (fun r => (r.1, (cond r.2 1 0) + 1))
    else if s = "message_replied" then
      some (infos, 1)
    else
      let r := addMessage ev infos
      some (r.1, (cond r.2 1 0) + 1)
  | none =>
    let r := addMessage ev infos
    some (r.1, (cond r.2 1 0) + 1)

/-- `reaction.reaction.item`: the polymorphic reaction target descriptor,
switched on by its `type` string; `other` covers every unknown variant. -/
inductive ReactionItem where
  | message (ts : String)
  | file (file : String)
  | fileComment (file : String) (file_comment : String)
  | other (type : String)
deriving DecidableEq, Repr

/-- The `message` arm's predicate: raw `ts` equality; never faults. -/
def messagePred (ts : String) (m : DisplaySlackMessageInfo) : Option Bool :=
  some (m.message.rawMessage.ts = ts)

/-- The `file` arm's predicate: subtype is `file_share`, `files` is truthy
(note an empty array is truthy in JavaScript), and `files[0].id` equals the
descriptor's file id.  Reading `files[0].id` of an empty array throws:
that is the `none` result. -/
def filePred (fid : String) (m : DisplaySlackMessageInfo) : Option Bool :=
  if m.message.subType = "file_share" then
    match m.message.rawMessage.files with
    | none => some false
    | some [] => none
    | some (f :: _) => some (f.id = fid)
  else some false

/-- The first predicate of the `file_comment` arm: subtype `file_comment`,
`files[0].id` equals the file id, and `comment.id` equals the comment id,
with the same empty-array fault as `filePred`. -/
def fileCommentPred (fid cid : String) (m : DisplaySlackMessageInfo) : Option Bool :=
  if m.message.subType = "file_comment" then
    match m.message.rawMessage.files with
    | none => some false
    | some [] => none
    | some (f :: _) =>
      if f.id = fid then
        match m.message.rawMessage.comment with
        | none => some false
        | some c => some (c.id = cid)
      else some false
  else some false

/-- `Array.prototype.find` over a predicate that may throw: `none` is a
fault, `some none` is no match, `some (some e)` is the first match. -/
def findOrFault (p : DisplaySlackMessageInfo → Option Bool) :
    List DisplaySlackMessageInfo → Option (Option DisplaySlackMessageInfo)
  | [] => some none
  | m :: ms =>
    match p m with
    | none => none
    | some true => some (some m)
    | some false => findOrFault p ms

/-- `SlackService.findReactionTarget`: switch on the descriptor variant;
the `file_comment` arm falls back to the `file_share` lookup when the
comment lookup finds nothing; unknown variants return `null`.  The outer
`Option` marks the empty-`files`-array fault. -/
def findReactionTarget (infos : List DisplaySlackMessageInfo) :
    ReactionItem → Option (Option DisplaySlackMessageInfo)
  | .message ts => findOrFault (messagePred ts) infos
  | .file fid => findOrFault (filePred fid) infos
  | .fileComment fid cid =>
    match findOrFault (fileCommentPred fid cid) infos with
    | none => none
    | some (some m) => some (some m)
    | some none => findOrFault (filePred fid) infos
  | .other _ => some none

/-- A `SlackClient`: its token plus an identity tag that stands for object
identity, so that "same instance" is expressible; fresh constructions get
fresh tags. -/
structure Client where
  token : String
  id : Nat
deriving DecidableEq, Repr

/-- One step of building the token-keyed cache
(`cache[slack.token] = [slack, false]`): a JavaScript object assignment
keeps the key's original position and overwrites its value, or appends a
new key at the end. -/
def cacheInsert (cache : List (String × Client)) (c : Client) :
    List (String × Client) :=
  if cache.any (fun p => p.1 = c.token) then
    cache.map (fun p => if p.1 = c.token then (p.1, c) else p)
  else cache ++ [(c.token, c)]

/-- The cache `refresh` builds from the previous `this.clients`. -/
def buildCache (prev : List Client) : List (String × Client) :=
  prev.foldl cacheInsert []

/-- Object-key lookup on the cache (each key occurs at most once). -/
def lookupCache (cache : List (String × Client)) (t : String) : Option Client :=
  (cache.find? (fun p => p.1 = t)).map (fun p => p.2)

/-- The `this.setting.tokens.map(...)` body of `refresh`: for each desired
token, reuse the cached client (marking its flag) or construct and start a
fresh one.  Returns the new client list, the list of clients that were
constructed (and therefore started), and the next fresh identity tag.  The
per-client parser and subscription rebuilding are external effects on the
reused-or-new client and do not change which client is produced. -/
def refreshClients (cache : List (String × Client)) (fresh : Nat) :
    List String → List Client × List Client × Nat
  | [] => ([], [], fresh)
  | t :: ts =>
    match lookupCache cache t with
    | some c =>
      let r := refreshClients cache fresh ts
      (c :: r.1, r.2.1, r.2.2)
    | none =>
      let c : Client := ⟨t, fresh⟩
      let r := refreshClients cache (fresh + 1) ts
      (c :: r.1, c :: r.2.1, r.2.2)

/-- The final loop of `refresh`: every cache entry whose flag was never set
— i.e. whose token was never looked up successfully, which for a cache key
means the token is not among the desired tokens — gets `stop()` called on
its client. -/
def refreshStopped (cache : List (String × Client)) (desired : List String) :
    List Client :=
  (cache.filter (fun p => ¬ desired.contains p.1)).map (fun p => p.2)

/-- The observable outcome of one `SlackService.refresh` run: the new
active client list, the clients constructed and started during the run, the
clients stopped during the run, and the next fresh identity tag. -/
structure RefreshResult where
  clients : List Client
  started : List Client
  stopped : List Client
  fresh : Nat
deriving DecidableEq, Repr

/-- `SlackService.refresh` given the previous active clients and the
desired token list. -/
def refresh (prev : List Client) (desired : List String) (fresh : Nat) :
    RefreshResult :=
  let cache := buildCache prev
  let r := refreshClients cache fresh desired
  ⟨r.1, r.2.1, refreshStopped cache desired, r.2.2⟩

/-- One reaction-aggregator operation on an entry's reaction list. -/
inductive ReactionOp where
  | add (ev : ReactionEvent)
  | remove (ev : ReactionEvent)
deriving DecidableEq, Repr

/-- Apply one aggregator operation. -/
def applyReactionOp (parse : String → String) (op : ReactionOp)
    (rs : List DisplaySlackReactionInfo) : List DisplaySlackReactionInfo :=
  match op with
  | .add ev => addReaction parse ev rs
  | .remove ev => removeReaction parse ev rs

/-- Apply a sequence of aggregator operations, oldest first. -/
def applyReactionOps (parse : String → String) :
    List ReactionOp → List DisplaySlackReactionInfo → List DisplaySlackReactionInfo
  | [], rs => rs
  | op :: ops, rs => applyReactionOps parse ops (applyReactionOp parse op rs)

lemma count_filter_ne_self (l : List String) (u : String) :
    (l.filter (fun v => v ≠ u)).count u = 0 := by
  rw [List.count_eq_zero]
  intro h
  have := List.of_mem_filter h
  simp at this

lemma mem_filter_ne_append (l : List String) (u v : String) :
    v ∈ l.filter (fun w => w ≠ u) ++ [u] ↔ v ∈ l ∨ v = u := by
  simp only [List.mem_append, List.mem_filter, List.mem_singleton, decide_eq_true_eq]
  constructor
  · rintro (⟨h, _⟩ | h)
    · exact Or.inl h
    · exact Or.inr h
  · intro h
    by_cases hv : v = u
    · exact Or.inr hv
    · rcases h with h | h
      · exact Or.inl ⟨h, hv⟩
      · exact absurd h hv

lemma nodup_filter_ne_append (l : List String) (u : String) (h : l.Nodup) :
    (l.filter (fun v => v ≠ u) ++ [u]).Nodup := by
  rw [List.nodup_append]
  refine ⟨h.filter _, List.nodup_singleton u, ?_⟩
  intro v hv hu
  rw [List.mem_singleton] at hu
  subst hu
  have := List.of_mem_filter hv
  simp at this

lemma find?_addReactionGroups (raw key u : String)
    (rs : List DisplaySlackReactionInfo) :
    ∃ g, (addReactionGroups raw key u rs).find? (fun r => r.reaction = key) = some g ∧
      g.users.count u = 1 := by
  induction rs with
  | nil =>
    refine ⟨⟨raw, key, [u]⟩, ?_, by simp⟩
    simp [addReactionGroups]
  | cons g gs ih =>
    by_cases h : g.reaction = key
    · refine ⟨addUser u g, ?_, ?_⟩
      · simp [addReactionGroups, h, addUser]
      · show List.count u (g.users.filter (fun v => v ≠ u) ++ [u]) = 1
        rw [List.count_append, count_filter_ne_self]
        simp
    · obtain ⟨g2, hf, hc⟩ := ih
      refine ⟨g2, ?_, hc⟩
      simpa [addReactionGroups, h] using hf

/-- C9: `addUser` moves the added user to the end of the group's user list
(it is the last element afterwards, even if it was already present), and
when the user was already present the list's membership and length are
unchanged. -/
theorem addUser_moves_user_to_end (g : DisplaySlackReactionInfo) (u : String) :
    (addUser u g).users.getLast? = some u ∧
    (u ∈ g.users → g.users.Nodup →
      (addUser u g).users.length = g.users.length ∧
      ∀ v, v ∈ (addUser u g).users ↔ v ∈ g.users) := by
  constructor
  · simp [addUser]
  · intro hu hd
    constructor
    · have he : g.users.erase u = g.users.filter (fun v => v ≠ u) := by
        simpa using hd.erase_eq_filter u
      have hl : (g.users.erase u).length = g.users.length - 1 :=
        List.length_erase_of_mem hu
      have hpos : 1 ≤ g.users.length := List.length_pos.mpr (by
        intro hnil
        rw [hnil] at hu
        simp at hu)
      simp only [addUser, List.length_append, ← he, hl, List.length_singleton]
      omega
    · intro v
      rw [show (addUser u g).users = g.users.filter (fun w => w ≠ u) ++ [u] from rfl,
        mem_filter_ne_append]
      constructor
      · rintro (h | h)
        · exact h
        · exact h ▸ hu
      · exact Or.inl

/-- C9 witness: concrete evaluation of `addUser_moves_user_to_end` on a
group that already contains the user. -/
theorem addUser_moves_user_to_end_witness :
    (addUser "u" ⟨"smile", "K", ["u", "v"]⟩).users.getLast? = some "u" ∧
    (addUser "u" ⟨"smile", "K", ["u", "v"]⟩).users.length =
      (["u", "v"] : List String).length ∧
    "v" ∈ (addUser "u" ⟨"smile", "K", ["u", "v"]⟩).users := by
  have h := addUser_moves_user_to_end ⟨"smile", "K", ["u", "v"]⟩ "u"
  have h2 := h.2 (by decide) (by decide)
  exact ⟨h.1, h2.1, (h2.2 "v").mpr (by decide)⟩

/-- C3 counterexample: re-adding a user who is already in the group is not
a no-op — the group's user list is reordered (the user moves to the end),
so the entry's reaction state changes. -/
theorem addReaction_readd_changes_state :
    addReaction id ⟨"smile", "u"⟩ [⟨"smile", ":smile::notitle:", ["u", "v"]⟩] ≠
      [⟨"smile", ":smile::notitle:", ["u", "v"]⟩] := by
  decide

/-- C3 (amended): after `addReaction` — in particular after calling it
twice with the same user — the group with the rendered key holds exactly
one membership for that user, and `addUser` preserves every other user's
membership count (re-adding reorders the list but never duplicates). -/
theorem addReaction_single_membership (parse : String → String) (ev : ReactionEvent)
    (rs : List DisplaySlackReactionInfo) :
    (∃ g, (addReaction parse ev (addReaction parse ev rs)).find?
        (fun r => r.reaction = reactionKey parse ev.reaction) = some g ∧
        g.users.count ev.user = 1) ∧
    ∀ g v, v ≠ ev.user →
      (addUser ev.user g).users.count v = g.users.count v := by
  constructor
  · exact find?_addReactionGroups ev.reaction (reactionKey parse ev.reaction) ev.user _
  · intro g v hv
    simp [addUser, List.count_append, List.count_filter, hv]

/-- C3 witness: concrete evaluation of `addReaction_single_membership`
after a double add, and count preservation for a distinct user. -/
theorem addReaction_single_membership_witness :
    (∃ g, (addReaction id ⟨"smile", "u"⟩ (addReaction id ⟨"smile", "u"⟩ [])).find?
        (fun r => r.reaction = reactionKey id "smile") = some g ∧
        g.users.count "u" = 1) ∧
    (addUser "u" ⟨"smile", "K", ["v", "u"]⟩).users.count "v" =
      (["v", "u"] : List String).count "v" := by
  have h := addReaction_single_membership id ⟨"smile", "u"⟩ []
  exact ⟨h.1, h.2 ⟨"smile", "K", ["v", "u"]⟩ "v" (by decide)⟩

lemma addReactionGroups_no_match (raw key u : String)
    (rs : List DisplaySlackReactionInfo) (h : ∀ g ∈ rs, g.reaction ≠ key) :
    addReactionGroups raw key u rs = rs ++ [⟨raw, key, [u]⟩] := by
  induction rs with
  | nil => simp [addReactionGroups]
  | cons g gs ih =>
    have hg := h g (by simp)
    simp [addReactionGroups, hg, ih (fun x hx => h x (by simp [hx]))]

lemma removeReactionAux_split (key u : String)
    (l1 l2 : List DisplaySlackReactionInfo) (g : DisplaySlackReactionInfo)
    (h1 : ∀ x ∈ l1, x.reaction ≠ key) (hg : g.reaction = key) :
    removeReactionAux key u (l1 ++ g :: l2) =
      (l1 ++ removeUser u g :: l2, some (removeUser u g).users.length) := by
  induction l1 with
  | nil => simp [removeReactionAux, hg]
  | cons x xs ih =>
    have hx := h1 x (by simp)
    simp [removeReactionAux, hx, ih (fun y hy => h1 y (by simp [hy]))]

/-- C4: removing a reaction just added to an entry that had no group with
that key restores the original reaction list exactly; and in general, when
the first group with the key is emptied by the removal, no group with that
key survives. -/
theorem removeReaction_round_trip (parse : String → String) (ev : ReactionEvent)
    (rs : List DisplaySlackReactionInfo) :
    ((∀ g ∈ rs, g.reaction ≠ reactionKey parse ev.reaction) →
      removeReaction parse ev (addReaction parse ev rs) = rs) ∧
    ∀ key u : String, ∀ l1 l2 : List DisplaySlackReactionInfo,
      ∀ g : DisplaySlackReactionInfo,
      (∀ x ∈ l1, x.reaction ≠ key) → g.reaction = key →
      g.users.filter (fun v => v ≠ u) = [] →
      ∀ g2 ∈ removeReactionGroups key u (l1 ++ g :: l2), g2.reaction ≠ key := by
  constructor
  · intro h
    show removeReactionGroups (reactionKey parse ev.reaction) ev.user
      (addReactionGroups ev.reaction (reactionKey parse ev.reaction) ev.user rs) = rs
    rw [addReactionGroups_no_match _ _ _ _ h]
    rw [show removeReactionGroups (reactionKey parse ev.reaction) ev.user
        (rs ++ [⟨ev.reaction, reactionKey parse ev.reaction, [ev.user]⟩]) =
        match removeReactionAux (reactionKey parse ev.reaction) ev.user
          (rs ++ [⟨ev.reaction, reactionKey parse ev.reaction, [ev.user]⟩]) with
        | (rs2, some 0) =>
          rs2.filter (fun r => r.reaction ≠ reactionKey parse ev.reaction)
        | (rs2, _) => rs2 from rfl]
    rw [removeReactionAux_split _ _ rs [] _ h rfl]
    have hru : removeUser ev.user
        ⟨ev.reaction, reactionKey parse ev.reaction, [ev.user]⟩ =
        ⟨ev.reaction, reactionKey parse ev.reaction, []⟩ := by
      simp [removeUser]
    rw [hru]
    simp only [List.length_nil]
    rw [List.filter_append]
    have h2 : rs.filter (fun r => r.reaction ≠ reactionKey parse ev.reaction) = rs :=
      List.filter_eq_self.mpr (fun a ha => by simpa using h a ha)
    simp [h2]
    exact h
  · intro key u l1 l2 g h1 hg hempty g2 hmem
    rw [show removeReactionGroups key u (l1 ++ g :: l2) =
        match removeReactionAux key u (l1 ++ g :: l2) with
        | (rs2, some 0) => rs2.filter (fun r => r.reaction ≠ key)
        | (rs2, _) => rs2 from rfl] at hmem
    rw [removeReactionAux_split key u l1 l2 g h1 hg] at hmem
    have hru : removeUser u g = { g with users := ([] : List String) } := by
      simp only [removeUser]
      exact congrArg _ hempty
    rw [hru] at hmem
    simp only [List.length_nil] at hmem
    have := List.of_mem_filter hmem
    simpa using this

/-- C4 witness: concrete round trip through `removeReaction_round_trip`,
and concrete deletion of an emptied group. -/
theorem removeReaction_round_trip_witness :
    removeReaction id ⟨"smile", "u"⟩
      (addReaction id ⟨"smile", "u"⟩ [⟨"x", ":x::notitle:", ["w"]⟩]) =
      [⟨"x", ":x::notitle:", ["w"]⟩] ∧
    ∀ g2 ∈ removeReactionGroups (":smile::notitle:") ("u")
      ([] ++ ⟨"smile", ":smile::notitle:", ["u"]⟩ :: []),
      g2.reaction ≠ ":smile::notitle:" := by
  have h := removeReaction_round_trip id ⟨"smile", "u"⟩ [⟨"x", ":x::notitle:", ["w"]⟩]
  refine ⟨h.1 (by decide), ?_⟩
  exact h.2 (":smile::notitle:") ("u") [] []
    ⟨"smile", ":smile::notitle:", ["u"]⟩ (by simp) (by decide) (by decide)

lemma nodupUsers_addReactionGroups (raw key u : String) :
    ∀ rs : List DisplaySlackReactionInfo, (∀ g ∈ rs, g.users.Nodup) →
      ∀ g ∈ addReactionGroups raw key u rs, g.users.Nodup := by
  intro rs
  induction rs with
  | nil =>
    intro h g hg
    simp [addReactionGroups] at hg
    subst hg
    simp
  | cons g0 gs ih =>
    intro h g hg
    by_cases hk : g0.reaction = key
    · simp only [addReactionGroups, hk, if_true, List.mem_cons] at hg
      rcases hg with hg | hg
      · subst hg
        exact nodup_filter_ne_append _ _ (h g0 (by simp))
      · exact h g (by simp [hg])
    · simp only [addReactionGroups, hk, if_false, List.mem_cons] at hg
      rcases hg with hg | hg
      · rw [hg]
        exact h g0 (by simp)
      · exact ih (fun x hx => h x (by simp [hx])) g hg

lemma mem_removeReactionGroups (key u : String)
    (rs : List DisplaySlackReactionInfo) (g : DisplaySlackReactionInfo)
    (hg : g ∈ removeReactionGroups key u rs) :
    g ∈ (removeReactionAux key u rs).1 := by
  unfold removeReactionGroups at hg
  rcases h : removeReactionAux key u rs with ⟨rs2, cnt⟩
  rw [h] at hg
  rcases cnt with _ | n
  · exact hg
  · rcases n with _ | n
    · exact List.mem_of_mem_filter hg
    · exact hg

lemma removeReactionAux_mem (key u : String)
    (rs : List DisplaySlackReactionInfo) :
    ∀ g ∈ (removeReactionAux key u rs).1,
      g ∈ rs ∨ ∃ g0, g0 ∈ rs ∧ g = removeUser u g0 := by
  induction rs with
  | nil => simp [removeReactionAux]
  | cons g0 gs ih =>
    intro g hg
    by_cases hk : g0.reaction = key
    · simp only [removeReactionAux, hk, if_true, List.mem_cons] at hg
      rcases hg with hg | hg
      · exact Or.inr ⟨g0, by simp, hg⟩
      · exact Or.inl (by simp [hg])
    · simp only [removeReactionAux, hk, if_false, List.mem_cons] at hg
      rcases hg with hg | hg
      · exact Or.inl (by simp [hg])
      · rcases ih g hg with h1 | ⟨g1, hg1, he⟩
        · exact Or.inl (by simp [h1])
        · exact Or.inr ⟨g1, by simp [hg1], he⟩

lemma nodupUsers_applyReactionOp (parse : String → String) (op : ReactionOp)
    (rs : List DisplaySlackReactionInfo) (h : ∀ g ∈ rs, g.users.Nodup) :
    ∀ g ∈ applyReactionOp parse op rs, g.users.Nodup := by
  cases op with
  | add ev => exact nodupUsers_addReactionGroups _ _ _ rs h
  | remove ev =>
    intro g hg
    have hm := mem_removeReactionGroups _ _ _ _ hg
    rcases removeReactionAux_mem _ _ _ g hm with h1 | ⟨g0, hg0, he⟩
    · exact h g h1
    · subst he
      exact (h g0 hg0).filter _

lemma nodupUsers_applyReactionOps (parse : String → String) (ops : List ReactionOp) :
    ∀ rs : List DisplaySlackReactionInfo, (∀ g ∈ rs, g.users.Nodup) →
      ∀ g ∈ applyReactionOps parse ops rs, g.users.Nodup := by
  induction ops with
  | nil => exact fun rs h => h
  | cons op ops ih =>
    intro rs h
    exact ih _ (nodupUsers_applyReactionOp parse op rs h)

/-- C8: in every reaction group reachable from the entry's initial (empty)
reaction state by any sequence of `addReaction` / `removeReaction`
operations, each user identifier appears at most once in the group's user
list. -/
theorem reaction_users_nodup_invariant (parse : String → String)
    (ops : List ReactionOp) :
    ∀ g ∈ applyReactionOps parse ops [], g.users.Nodup :=
  nodupUsers_applyReactionOps parse ops [] (by simp)

/-- C8 witness: concrete evaluation of `reaction_users_nodup_invariant` on
a double add of the same user followed by another user. -/
theorem reaction_users_nodup_invariant_witness :
    (⟨"smile", ":smile::notitle:", ["u", "v"]⟩ :
      DisplaySlackReactionInfo).users.Nodup :=
  reaction_users_nodup_invariant id
    [.add ⟨"smile", "u"⟩, .add ⟨"smile", "u"⟩, .add ⟨"smile", "v"⟩]
    ⟨"smile", ":smile::notitle:", ["u", "v"]⟩ (by decide)

/-- C6: inserted entries go to the head of the timeline: inserting three
messages (each carrying a message body) on top of any prior timeline yields
their entries in most-recent-first order ahead of the prior contents. -/
theorem addMessage_head_order (m1 m2 m3 : SlackMessage)
    (infos : List DisplaySlackMessageInfo)
    (h1 : m1.message.isSome = true) (h2 : m2.message.isSome = true)
    (h3 : m3.message.isSome = true) :
    (addMessage m3 (addMessage m2 (addMessage m1 infos).1).1).1 =
      mkInfo m3 :: mkInfo m2 :: mkInfo m1 :: infos := by
  obtain ⟨b1, hb1⟩ := Option.isSome_iff_exists.mp h1
  obtain ⟨b2, hb2⟩ := Option.isSome_iff_exists.mp h2
  obtain ⟨b3, hb3⟩ := Option.isSome_iff_exists.mp h3
  simp [addMessage, hb1, hb2, hb3]

/-- C6 witness: concrete evaluation of `addMessage_head_order` on three
messages over an empty timeline. -/
theorem addMessage_head_order_witness :
    (addMessage
        ⟨⟨none, "3", "c", none, none, none, none, none⟩, "t3", "",
          some ⟨none, "3", "c", none, none, none, none, none⟩⟩
      (addMessage
          ⟨⟨none, "2", "c", none, none, none, none, none⟩, "t2", "",
            some ⟨none, "2", "c", none, none, none, none, none⟩⟩
        (addMessage
            ⟨⟨none, "1", "c", none, none, none, none, none⟩, "t1", "",
              some ⟨none, "1", "c", none, none, none, none, none⟩⟩
          []).1).1).1 =
      [mkInfo ⟨⟨none, "3", "c", none, none, none, none, none⟩, "t3", "",
          some ⟨none, "3", "c", none, none, none, none, none⟩⟩,
        mkInfo ⟨⟨none, "2", "c", none, none, none, none, none⟩, "t2", "",
          some ⟨none, "2", "c", none, none, none, none, none⟩⟩,
        mkInfo ⟨⟨none, "1", "c", none, none, none, none, none⟩, "t1", "",
          some ⟨none, "1", "c", none, none, none, none, none⟩⟩] :=
  addMessage_head_order _ _ _ [] (by decide) (by decide) (by decide)

/-- C7: a `message_deleted` event carrying `deleted_ts = T` removes exactly
the entries whose raw-message timestamp equals `T`: the result is a sublist
of the previous timeline (same objects, same relative order) containing
precisely the entries with a different timestamp, and the handler
notifies. -/
theorem removeDeletedMessage_exact (ev : SlackMessage) (T : String)
    (infos : List DisplaySlackMessageInfo)
    (h : ev.rawMessage.deleted_ts = some T) :
    ((removeDeletedMessage ev infos).1).Sublist infos ∧
    (∀ e, e ∈ (removeDeletedMessage ev infos).1 ↔
      (e ∈ infos ∧ e.message.rawMessage.ts ≠ T)) ∧
    (removeDeletedMessage ev infos).2 = true := by
  refine ⟨List.filter_sublist _, ?_, rfl⟩
  intro e
  show e ∈ infos.filter (keptOnDelete ev.rawMessage.deleted_ts) ↔ _
  rw [List.mem_filter]
  unfold keptOnDelete
  rw [h]
  simp only [decide_eq_true_eq, ne_eq, Option.some.injEq]
  constructor
  · rintro ⟨hm, hne⟩
    exact ⟨hm, fun he => hne he.symm⟩
  · rintro ⟨hm, hne⟩
    exact ⟨hm, fun he => hne he.symm⟩

/-- C7 witness: concrete evaluation of `removeDeletedMessage_exact` on a
two-entry timeline where one entry's timestamp matches. -/
theorem removeDeletedMessage_exact_witness :
    ((removeDeletedMessage
        ⟨⟨some "message_deleted", "9", "c", some "100.5", none, none, none, none⟩,
          "", "", none⟩
        [mkInfo ⟨⟨none, "100.5", "c", none, none, none, none, none⟩, "a", "", none⟩,
          mkInfo ⟨⟨none, "7", "c", none, none, none, none, none⟩, "b", "", none⟩]).1).Sublist
      [mkInfo ⟨⟨none, "100.5", "c", none, none, none, none, none⟩, "a", "", none⟩,
        mkInfo ⟨⟨none, "7", "c", none, none, none, none, none⟩, "b", "", none⟩] ∧
    (mkInfo ⟨⟨none, "7", "c", none, none, none, none, none⟩, "b", "", none⟩ ∈
      (removeDeletedMessage
        ⟨⟨some "message_deleted", "9", "c", some "100.5", none, none, none, none⟩,
          "", "", none⟩
        [mkInfo ⟨⟨none, "100.5", "c", none, none, none, none, none⟩, "a", "", none⟩,
          mkInfo ⟨⟨none, "7", "c", none, none, none, none, none⟩, "b", "", none⟩]).1) ∧
    (mkInfo ⟨⟨none, "100.5", "c", none, none, none, none, none⟩, "a", "", none⟩ ∉
      (removeDeletedMessage
        ⟨⟨some "message_deleted", "9", "c", some "100.5", none, none, none, none⟩,
          "", "", none⟩
        [mkInfo ⟨⟨none, "100.5", "c", none, none, none, none, none⟩, "a", "", none⟩,
          mkInfo ⟨⟨none, "7", "c", none, none, none, none, none⟩, "b", "", none⟩]).1) := by
  have h := removeDeletedMessage_exact
    ⟨⟨some "message_deleted", "9", "c", some "100.5", none, none, none, none⟩,
      "", "", none⟩ "100.5"
    [mkInfo ⟨⟨none, "100.5", "c", none, none, none, none, none⟩, "a", "", none⟩,
      mkInfo ⟨⟨none, "7", "c", none, none, none, none, none⟩, "b", "", none⟩] rfl
  refine ⟨h.1, ?_, ?_⟩
  · exact (h.2.1 _).mpr (by decide)
  · intro hmem
    have := (h.2.1 _).mp hmem
    exact absurd this.2 (by decide)

lemma editFirst_no_match (emb : RawEmbedded) (ch : String)
    (infos : List DisplaySlackMessageInfo)
    (h : ∀ x ∈ infos, editMatches emb ch x = false) :
    editFirst emb ch infos = (infos, false) := by
  induction infos with
  | nil => rfl
  | cons m ms ih =>
    have hm := h m (by simp)
    simp [editFirst, hm, ih (fun x hx => h x (by simp [hx]))]

lemma editFirst_split (emb : RawEmbedded) (ch : String)
    (l1 l2 : List DisplaySlackMessageInfo) (m : DisplaySlackMessageInfo)
    (h1 : ∀ x ∈ l1, editMatches emb ch x = false)
    (hm : editMatches emb ch m = true) :
    editFirst emb ch (l1 ++ m :: l2) = (l1 ++ applyEdit emb m :: l2, true) := by
  induction l1 with
  | nil => simp [editFirst, hm]
  | cons x xs ih =>
    have hx := h1 x (by simp)
    simp [editFirst, hx, ih (fun y hy => h1 y (by simp [hy]))]

/-- C2 counterexample: a `message_changed` event whose embedded original
message matches no timeline entry leaves the timeline unchanged but still
emits one change notification (the dispatcher notifies after every handled
event), contradicting the claim that no change notification is emitted for
that event. -/
theorem changeMessage_unmatched_still_notifies :
    onReceiveMessage
        ⟨⟨some "message_changed", "9", "c", none, some ⟨"1", "x", none⟩,
          none, none, none⟩, "t", "", none⟩ [] ≠
      some ([], 0) ∧
    onReceiveMessage
        ⟨⟨some "message_changed", "9", "c", none, some ⟨"1", "x", none⟩,
          none, none, none⟩, "t", "", none⟩ [] =
      some ([], 1) := by
  exact ⟨by decide, by decide⟩

/-- C2 (amended): for a `message_changed` event carrying an embedded
original message, if some timeline entry matches the event's channel and
the embedded message's timestamp, the first such entry is marked edited,
its text and attachments are replaced, and two change notifications are
emitted (one by the edit handler, one by the dispatcher); otherwise the
timeline is unchanged and exactly one notification — the dispatcher's
unconditional per-event one — is still emitted. -/
theorem changeMessage_matched_edits (ev : SlackMessage) (emb : RawEmbedded)
    (infos l1 l2 : List DisplaySlackMessageInfo) (m : DisplaySlackMessageInfo)
    (hsub : ev.rawMessage.subtype = some ("message_changed"))
    (hemb : ev.rawMessage.message = some emb) :
    ((∀ x ∈ infos, editMatches emb ev.rawMessage.channel x = false) →
      onReceiveMessage ev infos = some (infos, 1)) ∧
    (infos = l1 ++ m :: l2 →
      (∀ x ∈ l1, editMatches emb ev.rawMessage.channel x = false) →
      editMatches emb ev.rawMessage.channel m = true →
      onReceiveMessage ev infos = some (l1 ++ applyEdit emb m :: l2, 2) ∧
      (applyEdit emb m).edited = true ∧
      (applyEdit emb m).message.text = emb.text ∧
      (applyEdit emb m).message.rawMessage.attachments = emb.attachments) := by
  constructor
  · intro h
    simp [onReceiveMessage, hsub, changeMessage, hemb, editFirst_no_match emb _ infos h]
  · intro heq h1 hm
    subst heq
    refine ⟨?_, rfl, rfl, rfl⟩
    simp [onReceiveMessage, hsub, changeMessage, hemb, editFirst_split emb _ l1 l2 m h1 hm]

/-- C2 witness: concrete evaluation of `changeMessage_matched_edits` in
both the unmatched case (empty timeline, one notification) and the matched
case (entry replaced in place, two notifications). -/
theorem changeMessage_matched_edits_witness :
    onReceiveMessage
        ⟨⟨some "message_changed", "9", "c", none, some ⟨"1", "x", some []⟩,
          none, none, none⟩, "t", "", none⟩ [] = some ([], 1) ∧
    onReceiveMessage
        ⟨⟨some "message_changed", "9", "c", none, some ⟨"1", "x", some []⟩,
          none, none, none⟩, "t", "", none⟩
        [mkInfo ⟨⟨none, "1", "c", none, none, none, none, none⟩, "old", "", none⟩] =
      some ([applyEdit ⟨"1", "x", some []⟩
        (mkInfo ⟨⟨none, "1", "c", none, none, none, none, none⟩, "old", "", none⟩)], 2) := by
  constructor
  · exact (changeMessage_matched_edits _ ⟨"1", "x", some []⟩ [] [] []
      (mkInfo ⟨⟨none, "1", "c", none, none, none, none, none⟩, "old", "", none⟩)
      rfl rfl).1 (by simp)
  · exact ((changeMessage_matched_edits _ ⟨"1", "x", some []⟩
      [mkInfo ⟨⟨none, "1", "c", none, none, none, none, none⟩, "old", "", none⟩] [] []
      (mkInfo ⟨⟨none, "1", "c", none, none, none, none, none⟩, "old", "", none⟩)
      rfl rfl).2 rfl (by simp) (by decide)).1

lemma findOrFault_all_false (p : DisplaySlackMessageInfo → Option Bool)
    (infos : List DisplaySlackMessageInfo)
    (h : ∀ m ∈ infos, p m = some false) :
    findOrFault p infos = some none := by
  induction infos with
  | nil => rfl
  | cons m ms ih =>
    have hm := h m (by simp)
    simp [findOrFault, hm, ih (fun x hx => h x (by simp [hx]))]

/-- C5: when a `file_comment` descriptor matches no tracked file-comment
entry (the comment predicate is false on every entry) but the file-share
scan finds an entry with the descriptor's file id, resolution returns that
file-share entry; and a descriptor of unknown variant resolves to no entry
without error. -/
theorem findReactionTarget_file_comment_fallback
    (infos : List DisplaySlackMessageInfo) (fid cid : String)
    (e : DisplaySlackMessageInfo)
    (hnc : ∀ m ∈ infos, fileCommentPred fid cid m = some false)
    (hf : findOrFault (filePred fid) infos = some (some e)) :
    findReactionTarget infos (.fileComment fid cid) = some (some e) ∧
    ∀ t : String, findReactionTarget infos (.other t) = some none := by
  constructor
  · show (match findOrFault (fileCommentPred fid cid) infos with
      | none => none
      | some (some m) => some (some m)
      | some none => findOrFault (filePred fid) infos) = some (some e)
    rw [findOrFault_all_false _ _ hnc]
    exact hf
  · intro t
    rfl

/-- C5 witness: concrete evaluation of
`findReactionTarget_file_comment_fallback` on a timeline holding one
file-share entry for the descriptor's file. -/
theorem findReactionTarget_file_comment_fallback_witness :
    findReactionTarget
        [⟨⟨⟨none, "1", "c", none, none, some [⟨"F"⟩], none, none⟩, "t",
          "file_share", none⟩, false, none, []⟩]
        (.fileComment ("F") ("X")) =
      some (some ⟨⟨⟨none, "1", "c", none, none, some [⟨"F"⟩], none, none⟩, "t",
        "file_share", none⟩, false, none, []⟩) ∧
    findReactionTarget
        [⟨⟨⟨none, "1", "c", none, none, some [⟨"F"⟩], none, none⟩, "t",
          "file_share", none⟩, false, none, []⟩]
        (.other ("pin")) = some none := by
  have h := findReactionTarget_file_comment_fallback
    [⟨⟨⟨none, "1", "c", none, none, some [⟨"F"⟩], none, none⟩, "t",
      "file_share", none⟩, false, none, []⟩] ("F") ("X")
    ⟨⟨⟨none, "1", "c", none, none, some [⟨"F"⟩], none, none⟩, "t",
      "file_share", none⟩, false, none, []⟩
    (by decide) (by decide)
  exact ⟨h.1, h.2 ("pin")⟩

lemma messagePred_ne_none (ts : String) (m : DisplaySlackMessageInfo) :
    messagePred ts m ≠ none := by
  simp [messagePred]

lemma filePred_ne_none (fid : String) (m : DisplaySlackMessageInfo)
    (h : m.message.rawMessage.files ≠ some []) : filePred fid m ≠ none := by
  unfold filePred
  by_cases hs : m.message.subType = "file_share"
  · rw [if_pos hs]
    rcases hf : m.message.rawMessage.files with _ | fs
    · simp
    · rcases fs with _ | ⟨f, fs⟩
      · exact absurd hf h
      · simp
  · rw [if_neg hs]
    simp

lemma fileCommentPred_ne_none (fid cid : String) (m : DisplaySlackMessageInfo)
    (h : m.message.rawMessage.files ≠ some []) : fileCommentPred fid cid m ≠ none := by
  unfold fileCommentPred
  by_cases hs : m.message.subType = "file_comment"
  · rw [if_pos hs]
    rcases hf : m.message.rawMessage.files with _ | fs
    · simp
    · rcases fs with _ | ⟨f, fs⟩
      · exact absurd hf h
      · rcases m.message.rawMessage.comment with _ | c <;>
          by_cases hid : f.id = fid <;> simp [hid]
  · rw [if_neg hs]
    simp

lemma findOrFault_isSome (p : DisplaySlackMessageInfo → Option Bool)
    (infos : List DisplaySlackMessageInfo)
    (h : ∀ m ∈ infos, p m ≠ none) :
    (findOrFault p infos).isSome = true := by
  induction infos with
  | nil => rfl
  | cons m ms ih =>
    have hm := h m (by simp)
    rcases hp : p m with _ | b
    · exact absurd hp hm
    · rcases b with _ | _
      · simpa [findOrFault, hp] using ih (fun x hx => h x (by simp [hx]))
      · simp [findOrFault, hp]

/-- C10: the resolver is total (returns an entry or no entry without
faulting) on every descriptor provided every tracked entry's `files` list,
when present, is non-empty; and a tracked `file_share` entry whose `files`
is an empty array makes the `file` lookup fault (the read of
`files[0].id` throws). -/
theorem findReactionTarget_total_unless_empty_files
    (infos : List DisplaySlackMessageInfo)
    (h : ∀ m ∈ infos, m.message.rawMessage.files ≠ some []) :
    (∀ item : ReactionItem, (findReactionTarget infos item).isSome = true) ∧
    findReactionTarget
        [⟨⟨⟨none, "1", "c", none, none, some [], none, none⟩, "t",
          "file_share", none⟩, false, none, []⟩]
        (.file ("F")) = none := by
  constructor
  · intro item
    cases item with
    | message ts => exact findOrFault_isSome _ _ (fun m _ => messagePred_ne_none ts m)
    | file fid => exact findOrFault_isSome _ _ (fun m hm => filePred_ne_none fid m (h m hm))
    | fileComment fid cid =>
      show (match findOrFault (fileCommentPred fid cid) infos with
        | none => none
        | some (some m) => some (some m)
        | some none => findOrFault (filePred fid) infos).isSome = true
      have h1 := findOrFault_isSome _ infos
        (fun m hm => fileCommentPred_ne_none fid cid m (h m hm))
      rcases hfc : findOrFault (fileCommentPred fid cid) infos with _ | r
      · rw [hfc] at h1
        simp at h1
      · rcases r with _ | m
        · exact findOrFault_isSome _ _ (fun m hm => filePred_ne_none fid m (h m hm))
        · rfl
    | other t => rfl
  · rfl

/-- C10 witness: concrete evaluation of
`findReactionTarget_total_unless_empty_files` on a timeline whose only
entry has a non-empty `files` list. -/
theorem findReactionTarget_total_unless_empty_files_witness :
    (∀ item : ReactionItem, (findReactionTarget
        [⟨⟨⟨none, "1", "c", none, none, some [⟨"F"⟩], none, none⟩, "t",
          "file_share", none⟩, false, none, []⟩] item).isSome = true) ∧
    findReactionTarget
        [⟨⟨⟨none, "1", "c", none, none, some [], none, none⟩, "t",
          "file_share", none⟩, false, none, []⟩]
        (.file ("F")) = none :=
  findReactionTarget_total_unless_empty_files
    [⟨⟨⟨none, "1", "c", none, none, some [⟨"F"⟩], none, none⟩, "t",
      "file_share", none⟩, false, none, []⟩]
    (by decide)

lemma cacheInsert_new (acc : List (String × Client)) (c : Client)
    (h : ∀ p ∈ acc, p.1 ≠ c.token) :
    cacheInsert acc c = acc ++ [(c.token, c)] := by
  have ha : acc.any (fun p => p.1 = c.token) = false := by
    rw [List.any_eq_false]
    intro p hp
    simpa using h p hp
  simp [cacheInsert, ha]

lemma buildCache_aux (prev : List Client) :
    ∀ acc : List (String × Client),
      (∀ c ∈ prev, ∀ p ∈ acc, p.1 ≠ c.token) →
      (prev.map Client.token).Nodup →
      prev.foldl cacheInsert acc = acc ++ prev.map (fun c => (c.token, c)) := by
  induction prev with
  | nil =>
    intro acc _ _
    simp
  | cons c cs ih =>
    intro acc hdisj hnd
    rw [List.map_cons, List.nodup_cons] at hnd
    simp only [List.foldl_cons]
    rw [cacheInsert_new acc c (hdisj c (by simp))]
    rw [ih (acc ++ [(c.token, c)]) ?_ hnd.2]
    · simp
    · intro c2 hc2 p hp
      rcases List.mem_append.mp hp with hp | hp
      · exact hdisj c2 (by simp [hc2]) p hp
      · simp only [List.mem_singleton] at hp
        rw [hp]
        intro he
        apply hnd.1
        have he2 : c.token = c2.token := he
        rw [he2]
        exact List.mem_map_of_mem Client.token hc2

lemma buildCache_eq (prev : List Client) (h : (prev.map Client.token).Nodup) :
    buildCache prev = prev.map (fun c => (c.token, c)) := by
  have := buildCache_aux prev [] (by simp) h
  simpa [buildCache] using this

lemma find?_map_pair (prev : List Client) (c : Client)
    (hnd : (prev.map Client.token).Nodup) (hc : c ∈ prev) :
    (prev.map (fun x => (x.token, x))).find? (fun p => p.1 = c.token) =
      some (c.token, c) := by
  induction prev with
  | nil => simp at hc
  | cons c0 cs ih =>
    rw [List.map_cons, List.nodup_cons] at hnd
    rcases List.mem_cons.mp hc with hc | hc
    · rw [hc]
      simp
    · have hne : ((c0.token = c.token) = False) := by
        simp only [eq_iff_iff, iff_false]
        intro he
        exact hnd.1 (he ▸ List.mem_map_of_mem Client.token hc)
      simp only [List.map_cons, List.find?_cons, hne, decide_False, cond_false]
      exact ih hnd.2 hc

lemma lookupCache_mem (prev : List Client) (c : Client)
    (h : (prev.map Client.token).Nodup) (hc : c ∈ prev) :
    lookupCache (buildCache prev) c.token = some c := by
  rw [buildCache_eq prev h]
  unfold lookupCache
  rw [find?_map_pair prev c h hc]
  rfl

lemma lookupCache_not_mem (prev : List Client) (t : String)
    (hnd : (prev.map Client.token).Nodup) (h : t ∉ prev.map Client.token) :
    lookupCache (buildCache prev) t = none := by
  rw [buildCache_eq prev hnd]
  unfold lookupCache
  rw [List.find?_eq_none.mpr]
  · rfl
  · intro p hp
    rcases List.mem_map.mp hp with ⟨x, hx, he⟩
    rw [← he]
    simp only [decide_eq_true_eq]
    intro ht
    exact h (ht ▸ List.mem_map_of_mem Client.token hx)

lemma lookupCache_token (cache : List (String × Client)) (t : String) (c : Client)
    (hcoh : ∀ p ∈ cache, p.2.token = p.1)
    (h : lookupCache cache t = some c) : c.token = t := by
  unfold lookupCache at h
  rcases hf : cache.find? (fun p => p.1 = t) with _ | p
  · rw [hf] at h
    simp at h
  · rw [hf] at h
    simp only [Option.map_some', Option.some.injEq] at h
    have hp := List.find?_some hf
    have hm := List.mem_of_find?_eq_some hf
    rw [← h, hcoh p hm]
    simpa using hp

lemma refreshClients_clients_token (cache : List (String × Client))
    (hcoh : ∀ p ∈ cache, p.2.token = p.1) :
    ∀ desired : List String, ∀ fresh : Nat,
      ∀ c ∈ (refreshClients cache fresh desired).1, c.token ∈ desired := by
  intro desired
  induction desired with
  | nil =>
    intro fresh c hc
    simp [refreshClients] at hc
  | cons t ts ih =>
    intro fresh c hc
    rcases hl : lookupCache cache t with _ | c0
    · simp only [refreshClients, hl] at hc
      rcases List.mem_cons.mp hc with hc | hc
      · rw [hc]
        simp
      · exact List.mem_cons_of_mem _ (ih (fresh + 1) c hc)
    · simp only [refreshClients, hl] at hc
      rcases List.mem_cons.mp hc with hc | hc
      · rw [hc, lookupCache_token cache t c0 hcoh hl]
        simp
      · exact List.mem_cons_of_mem _ (ih fresh c hc)

lemma refreshClients_reuse (cache : List (String × Client)) (t : String) (c : Client)
    (hl : lookupCache cache t = some c) :
    ∀ desired : List String, ∀ fresh : Nat,
      t ∈ desired → c ∈ (refreshClients cache fresh desired).1 := by
  intro desired
  induction desired with
  | nil =>
    intro fresh h
    simp at h
  | cons t0 ts ih =>
    intro fresh ht
    rcases List.mem_cons.mp ht with ht | ht
    · rw [← ht]
      simp [refreshClients, hl]
    · rcases hl0 : lookupCache cache t0 with _ | c0 <;>
        simp only [refreshClients, hl0] <;>
        exact List.mem_cons_of_mem _ (ih _ ht)

lemma refreshClients_started (cache : List (String × Client)) :
    ∀ desired : List String, ∀ fresh : Nat,
      ∀ c ∈ (refreshClients cache fresh desired).2.1,
        c.token ∈ desired ∧ lookupCache cache c.token = none := by
  intro desired
  induction desired with
  | nil =>
    intro fresh c hc
    simp [refreshClients] at hc
  | cons t ts ih =>
    intro fresh c hc
    rcases hl : lookupCache cache t with _ | c0
    · simp only [refreshClients, hl] at hc
      rcases List.mem_cons.mp hc with hc | hc
      · rw [hc]
        exact ⟨by simp, hl⟩
      · obtain ⟨h1, h2⟩ := ih (fresh + 1) c hc
        exact ⟨List.mem_cons_of_mem _ h1, h2⟩
    · simp only [refreshClients, hl] at hc
      obtain ⟨h1, h2⟩ := ih fresh c hc
      exact ⟨List.mem_cons_of_mem _ h1, h2⟩

lemma refreshClients_started_count (cache : List (String × Client)) :
    ∀ desired : List String, desired.Nodup →
      ∀ t ∈ desired, lookupCache cache t = none →
      ∀ fresh : Nat,
      (refreshClients cache fresh desired).2.1.countP (fun c => c.token = t) = 1 := by
  intro desired
  induction desired with
  | nil =>
    intro _ t ht
    simp at ht
  | cons t0 ts ih =>
    intro hnd t ht hl fresh
    rw [List.nodup_cons] at hnd
    rcases List.mem_cons.mp ht with ht | ht
    · rw [← ht] at hnd ⊢
      simp only [refreshClients, hl]
      rw [List.countP_cons]
      have h0 : (refreshClients cache (fresh + 1) ts).2.1.countP
          (fun c => c.token = t) = 0 := by
        rw [List.countP_eq_zero]
        intro c hc
        have hmem := (refreshClients_started cache ts (fresh + 1) c hc).1
        simp only [decide_eq_true_eq]
        intro he
        exact hnd.1 (he ▸ hmem)
      simp [h0]
    · have hne : ¬ ((⟨t0, fresh⟩ : Client).token = t) := by
        intro he
        apply hnd.1
        have h2 : t0 = t := he
        rw [h2]
        exact ht
      rcases hl0 : lookupCache cache t0 with _ | c0
      · simp only [refreshClients, hl0]
        rw [List.countP_cons]
        simp only [hne, decide_False]
        simpa using ih hnd.2 t ht hl (fresh + 1)
      · simp only [refreshClients, hl0]
        exact ih hnd.2 t ht hl fresh

lemma refreshClients_started_sub (cache : List (String × Client)) :
    ∀ desired : List String, ∀ fresh : Nat,
      ∀ c ∈ (refreshClients cache fresh desired).2.1,
        c ∈ (refreshClients cache fresh desired).1 := by
  intro desired
  induction desired with
  | nil =>
    intro fresh c hc
    simp [refreshClients] at hc
  | cons t ts ih =>
    intro fresh c hc
    rcases hl : lookupCache cache t with _ | c0
    · simp only [refreshClients, hl] at hc ⊢
      rcases List.mem_cons.mp hc with hc | hc
      · rw [hc]
        simp
      · exact List.mem_cons_of_mem _ (ih (fresh + 1) c hc)
    · simp only [refreshClients, hl] at hc ⊢
      exact List.mem_cons_of_mem _ (ih fresh c hc)

lemma filter_map_pair (desired : List String) (l : List Client) :
    ((l.map (fun c => (c.token, c))).filter
        (fun p => ¬ desired.contains p.1)).map (fun p => p.2) =
      l.filter (fun c => ¬ desired.contains c.token) := by
  induction l with
  | nil => rfl
  | cons c cs ih =>
    simp at ih
    by_cases hc : c.token ∈ desired
    · simp only [List.map_cons, List.filter_cons]
      simp [hc, ih]
    · simp only [List.map_cons, List.filter_cons]
      simp [hc, ih]

lemma refreshStopped_eq (prev : List Client) (desired : List String)
    (h : (prev.map Client.token).Nodup) :
    refreshStopped (buildCache prev) desired =
      prev.filter (fun c => ¬ desired.contains c.token) := by
  rw [buildCache_eq prev h]
  unfold refreshStopped
  exact filter_map_pair desired prev

/-- C1: reconciliation against a token-distinct previous connection set and
a token-distinct desired token list: a previous client whose token is still
desired is reused (same object, present in the new active set, not started,
not stopped); every started client is a fresh construction (its token was
not previously active) and joins the active set; a token that is newly
desired gets exactly one started client; a previous client whose token is
no longer desired is stopped exactly once and is not in the new active
set. -/
theorem refresh_reconciles (prev : List Client) (desired : List String) (fresh : Nat)
    (hp : (prev.map Client.token).Nodup) (hd : desired.Nodup) :
    (∀ c ∈ prev, c.token ∈ desired →
      c ∈ (refresh prev desired fresh).clients ∧
      c ∉ (refresh prev desired fresh).started ∧
      c ∉ (refresh prev desired fresh).stopped) ∧
    (∀ c ∈ (refresh prev desired fresh).started,
      c ∈ (refresh prev desired fresh).clients ∧
      c.token ∉ prev.map Client.token) ∧
    (∀ t ∈ desired, t ∉ prev.map Client.token →
      (refresh prev desired fresh).started.countP (fun c => c.token = t) = 1) ∧
    (∀ c ∈ prev, c.token ∉ desired →
      (refresh prev desired fresh).stopped.count c = 1 ∧
      c ∉ (refresh prev desired fresh).clients) := by
  have hcoh : ∀ p ∈ buildCache prev, p.2.token = p.1 := by
    rw [buildCache_eq prev hp]
    intro p hp2
    rcases List.mem_map.mp hp2 with ⟨x, _, he⟩
    rw [← he]
  have hcl : (refresh prev desired fresh).clients =
      (refreshClients (buildCache prev) fresh desired).1 := rfl
  have hst : (refresh prev desired fresh).started =
      (refreshClients (buildCache prev) fresh desired).2.1 := rfl
  have hsp : (refresh prev desired fresh).stopped =
      refreshStopped (buildCache prev) desired := rfl
  refine ⟨?_, ?_, ?_, ?_⟩
  · intro c hc htok
    have hl := lookupCache_mem prev c hp hc
    refine ⟨?_, ?_, ?_⟩
    · rw [hcl]
      exact refreshClients_reuse _ _ _ hl desired fresh htok
    · rw [hst]
      intro hs
      have h2 := (refreshClients_started _ desired fresh c hs).2
      rw [hl] at h2
      exact Option.noConfusion h2
    · rw [hsp, refreshStopped_eq prev desired hp]
      intro hs
      have h2 := List.of_mem_filter hs
      simp at h2
      exact h2 htok
  · intro c hs
    rw [hst] at hs
    obtain ⟨h1, h2⟩ := refreshClients_started _ desired fresh c hs
    refine ⟨?_, ?_⟩
    · rw [hcl]
      exact refreshClients_started_sub _ desired fresh c hs
    · intro hmem
      rcases List.mem_map.mp hmem with ⟨x, hx, he⟩
      have h3 := lookupCache_mem prev x hp hx
      rw [he] at h3
      rw [h3] at h2
      exact Option.noConfusion h2
  · intro t ht hmem
    rw [hst]
    exact refreshClients_started_count _ desired hd t ht
      (lookupCache_not_mem prev t hp hmem) fresh
  · intro c hc htok
    constructor
    · rw [hsp, refreshStopped_eq prev desired hp]
      have hnd2 : (prev.filter (fun x : Client => ¬ desired.contains x.token)).Nodup :=
        (List.Nodup.of_map Client.token hp).filter _
      have hcm : c ∈ prev.filter (fun x : Client => ¬ desired.contains x.token) :=
        List.mem_filter.mpr ⟨hc, by simp [htok]⟩
      exact List.count_eq_one_of_mem hnd2 hcm
    · rw [hcl]
      intro hcl2
      exact htok (refreshClients_clients_token _ hcoh desired fresh c hcl2)

/-- C1 witness: the spec scenario — previous tokens ["A","B"], desired
["B","C"]: B is reused (same object, not restarted, not stopped), exactly
one client is started for C, and A is stopped exactly once and dropped. -/
theorem refresh_reconciles_witness :
    (⟨"B", 1⟩ : Client) ∈ (refresh [⟨"A", 0⟩, ⟨"B", 1⟩] ["B", "C"] 2).clients ∧
    (⟨"B", 1⟩ : Client) ∉ (refresh [⟨"A", 0⟩, ⟨"B", 1⟩] ["B", "C"] 2).started ∧
    (⟨"B", 1⟩ : Client) ∉ (refresh [⟨"A", 0⟩, ⟨"B", 1⟩] ["B", "C"] 2).stopped ∧
    (refresh [⟨"A", 0⟩, ⟨"B", 1⟩] ["B", "C"] 2).started.countP
      (fun c => c.token = "C") = 1 ∧
    (refresh [⟨"A", 0⟩, ⟨"B", 1⟩] ["B", "C"] 2).stopped.count ⟨"A", 0⟩ = 1 ∧
    (⟨"A", 0⟩ : Client) ∉ (refresh [⟨"A", 0⟩, ⟨"B", 1⟩] ["B", "C"] 2).clients := by
  have h := refresh_reconciles [⟨"A", 0⟩, ⟨"B", 1⟩] ["B", "C"] 2 (by decide) (by decide)
  have hB := h.1 ⟨"B", 1⟩ (by decide) (by decide)
  have hC := h.2.2.1 ("C") (by decide) (by decide)
  have hA := h.2.2.2 ⟨"A", 0⟩ (by decide) (by decide)
  exact ⟨hB.1, hB.2.1, hB.2.2, hC, hA.1, hA.2⟩

end SlackSpec
